import Mathlib

/-!
Verification of the WHPC ingestion pipeline against its specification.

The Python sources are shallowly embedded as Lean definitions:

* `scraper/crawl4ai_scraper.py` — normalization engine (`_parse_price`,
  `_infer_brand`, `_infer_category`, `_normalize`) and the concurrent
  orchestrator `scrape_all`;
* `scraper/importer.py` — the identity-resolving upsert engine
  `upsert_products`;
* `scheduler.py` — `start_scheduler` and the `_run_outscraper` job body.

Python strings are Lean `String`s, Python floats (prices) are `ℚ`,
`datetime.utcnow()` is surfaced as an explicit `Nat` parameter, and the
SQLAlchemy session/database is an explicit `Catalog` state record.
-/

namespace WHPC

/-! ### Basic string operations (ASCII models of the Python string methods) -/

/-- Model of Python `str.lower` for ASCII letters. -/
def lowerChar (c : Char) : Char :=
  if 'A' ≤ c ∧ c ≤ 'Z' then Char.ofNat (c.toNat + 32) else c

/-- Model of Python `str.lower`. -/
def lowerStr (s : String) : String := ⟨s.data.map lowerChar⟩

/-- Whitespace characters removed by Python `str.strip()`. -/
def isSpaceChar (c : Char) : Bool :=
  c == ' ' || c == '\t' || c == '\n' || c == '\r'

/-- Model of Python `str.strip()`. -/
def trimStr (s : String) : String :=
  ⟨((s.data.dropWhile isSpaceChar).reverse.dropWhile isSpaceChar).reverse⟩

/-- Does `needle` occur at the head of the list? (helper for substring search) -/
def leadsWith : List Char → List Char → Bool
  | _, [] => true
  | [], _ :: _ => false
  | a :: as, b :: bs => a == b && leadsWith as bs

/-- Does `needle` occur as a contiguous subsequence? (helper for Python `in`) -/
def containsSeq : List Char → List Char → Bool
  | [], needle => needle.isEmpty
  | c :: t, needle => leadsWith (c :: t) needle || containsSeq t needle

/-- Model of the Python substring test `needle in hay`. -/
def containsSub (hay needle : String) : Bool := containsSeq hay.data needle.data

/-- Model of Python `str.rstrip("/")`. -/
def rstripSlash (s : String) : String :=
  ⟨(s.data.reverse.dropWhile (fun c => c == '/')).reverse⟩

/-- Model of Python `str.lstrip("/")`. -/
def lstripSlash (s : String) : String :=
  ⟨s.data.dropWhile (fun c => c == '/')⟩

/-! ### Raw extracted field maps

`JsonCssExtractionStrategy` produces JSON objects whose values are strings
(`text`/`attribute` fields; an unmatched optional selector yields `""`) or
booleans (`exists` fields).  A raw item is an association list over those
values. -/

/-- A JSON value appearing in a raw extracted item. -/
inductive Value where
  | vStr (s : String)
  | vBool (b : Bool)
deriving DecidableEq, Repr

/-- Python truthiness of a raw value (`bool(v)`). -/
def Value.truthy : Value → Bool
  | .vStr s => !(s == "")
  | .vBool b => b

/-- One scraped item's unprocessed field map (a Python `dict`). -/
abbrev RawItem := List (String × Value)

/-- Model of Python `dict.get(k)` (returning `None` when the key is absent). -/
def RawItem.get (raw : RawItem) (k : String) : Option Value :=
  (raw.find? (fun kv => kv.1 == k)).map (fun kv => kv.2)

/-- Model of the Python idiom `(raw.get(k) or "")` for string-valued fields.
(A `vBool true` value would make Python's subsequent string methods raise;
that corner is outside the domain produced by the extractor, where string
fields always hold strings.) -/
def getStrOrEmpty (raw : RawItem) (k : String) : String :=
  match raw.get k with
  | some (.vStr s) => s
  | some (.vBool _) => ""
  | none => ""

/-! ### `_parse_price` (crawl4ai_scraper.py lines 307–312)

```python
def _parse_price(raw: str) -> Optional[float]:
    if not raw:
        return None
    match = re.search(r"[\d,]+\.?\d*", raw.replace(",", ""))
    return float(match.group()) if match else None
```
After `raw.replace(",", "")` removes every comma, the pattern
`[\d,]+\.?\d*` matches, at the first digit, a maximal digit run, then an
optional dot, then a maximal digit run. -/

/-- Model of Python `raw.replace(",", "")`. -/
def stripCommas (s : String) : String := ⟨s.data.filter (fun c => !(c == ','))⟩

/-- Value of a digit string (`int` of the digits, most significant first). -/
def digitsVal (cs : List Char) : Nat :=
  cs.foldl (fun n c => 10 * n + (c.toNat - 48)) 0

/-- First match of `\d+\.?\d*`: returns the integer-part digits and the
fractional-part digits of the leftmost number in the character list. -/
def firstNumberRun : List Char → Option (List Char × List Char)
  | [] => none
  | c :: cs =>
    if c.isDigit then
      let ip := (c :: cs).takeWhile Char.isDigit
      match (c :: cs).dropWhile Char.isDigit with
      | '.' :: rest => some (ip, rest.takeWhile Char.isDigit)
      | _ => some (ip, [])
    else firstNumberRun cs

/-- Numeric value of a matched decimal literal (what Python `float` returns
on the matched group, represented exactly in `ℚ`). -/
def decimalVal (ip fp : List Char) : ℚ :=
  (digitsVal ip : ℚ) + (digitsVal fp : ℚ) / (10 : ℚ) ^ fp.length

/-- Embedding of `_parse_price`. -/
def _parse_price (raw : String) : Option ℚ :=
  if raw = "" then none
  else
    match firstNumberRun (stripCommas raw).data with
    | none => none
    | some (ip, fp) => some (decimalVal ip fp)

/-! ### `_infer_brand` (crawl4ai_scraper.py lines 315–331) -/

/-- The direct-brand retailer sites (`brand_sites` in `_infer_brand`). -/
def brand_sites : List String :=
  ["Everlywell", "LetsGetChecked", "Labcorp On Demand", "Quest Diagnostics"]

/-- The fixed known-brand list, in source order (`known_brands`). -/
def known_brands : List String :=
  ["Clearblue", "First Response", "Pregmate", "Easy@Home", "Proov",
   "Inito", "Mira", "Wisp", "Everlywell", "LetsGetChecked", "Nurx",
   "at&t", "Stix", "MomMed"]

/-- The `for brand in known_brands` loop: first entry whose lower-cased text
occurs in the lower-cased product name. -/
def firstBrandIn (name : String) : List String → Option String
  | [] => none
  | b :: bs =>
    if containsSub (lowerStr name) (lowerStr b) then some b
    else firstBrandIn name bs

/-- Embedding of `_infer_brand`. -/
def _infer_brand (name retailer : String) : String :=
  if retailer ∈ brand_sites then retailer
  else
    match firstBrandIn name known_brands with
    | some b => b
    | none => retailer

/-- The brand-inference contract as the spec words it: a priority chain whose
second stage is a first-match scan of the ordered `known_brands` list. -/
def inferBrandSpec (name retailer : String) : String :=
  if retailer ∈ brand_sites then retailer
  else
    (known_brands.find?
      (fun b => containsSub (lowerStr name) (lowerStr b))).getD retailer

/-! ### `_infer_category` (crawl4ai_scraper.py lines 334–356) -/

/-- Is any keyword of `ks` a substring of `text`? (`any(k in text for k in ks)`) -/
def anyIn (text : String) (ks : List String) : Bool :=
  ks.any (fun k => containsSub text k)

/-- Embedding of `_infer_category`: the chain of `if any(...)` tests, in
source order. -/
def _infer_category (name description : String) : String :=
  let text := lowerStr (name ++ " " ++ description)
  if anyIn text ["pregnan", "pregnancy"] then "Pregnancy"
  else if anyIn text ["ovulat", "fertility", "lh surge", "fsh"] then
    "Ovulation & Fertility"
  else if anyIn text ["sti", "std", "chlamydia", "gonorrhea", "hiv",
                      "herpes", "syphilis"] then "STI / STD"
  else if anyIn text ["menopause", "perimenopause"] then "Menopause & FSH"
  else if anyIn text ["thyroid", "tsh", "t3", "t4"] then "Thyroid"
  else if anyIn text ["hormone", "estrogen", "progesterone", "testosterone",
                      "cortisol"] then "Hormone Panel"
  else if anyIn text ["uti", "urinary tract"] then "UTI"
  else if anyIn text ["vaginal", "bv", "bacterial vaginosis", "yeast",
                      "ph"] then "Vaginal Health"
  else if anyIn text ["pcos", "polycystic"] then "PCOS"
  else if anyIn text ["brca", "breast cancer", "genetic"] then
    "Breast Cancer Risk"
  else "General Wellness"

/-- The category rules as the spec words them: a fixed ordered list of
(keyword-set, category) rules, first rule with any member present wins. -/
def categoryRules : List (List String × String) :=
  [(["pregnan", "pregnancy"], "Pregnancy"),
   (["ovulat", "fertility", "lh surge", "fsh"], "Ovulation & Fertility"),
   (["sti", "std", "chlamydia", "gonorrhea", "hiv", "herpes", "syphilis"],
    "STI / STD"),
   (["menopause", "perimenopause"], "Menopause & FSH"),
   (["thyroid", "tsh", "t3", "t4"], "Thyroid"),
   (["hormone", "estrogen", "progesterone", "testosterone", "cortisol"],
    "Hormone Panel"),
   (["uti", "urinary tract"], "UTI"),
   (["vaginal", "bv", "bacterial vaginosis", "yeast", "ph"], "Vaginal Health"),
   (["pcos", "polycystic"], "PCOS"),
   (["brca", "breast cancer", "genetic"], "Breast Cancer Risk")]

/-- First-match classification over `categoryRules`, catch-all
`"General Wellness"`. -/
def inferCategorySpec (name description : String) : String :=
  let text := lowerStr (name ++ " " ++ description)
  ((categoryRules.find? (fun r => anyIn text r.1)).map (fun r => r.2)).getD
    "General Wellness"

/-! ### `ScrapedProduct` and `_normalize` (crawl4ai_scraper.py lines 30–45, 359–397) -/

/-- The intermediate dataclass produced by normalization (`scraped_at` is not
carried: the importer timestamps listings itself with `datetime.utcnow()`,
which the embedding surfaces as an explicit parameter). -/
structure ScrapedProduct where
  name : String
  brand : String
  price : ℚ
  url : String
  retailer : String
  retailer_logo : String := ""
  original_price : Option ℚ := none
  image_url : String := ""
  description : String := ""
  category : String := "General Wellness"
  in_stock : Bool := true
  tags : List String := []
deriving DecidableEq, Repr

/-- Embedding of `_normalize`.  `schema_base_url` is `schema["base_url"]`
when a schema was passed (`none` models `schema=None`; every schema in
`RETAILER_SCHEMAS` declares a `base_url`). -/
def _normalize (raw_item : RawItem) (retailer retailer_logo base_url : String)
    (schema_base_url : Option String) : Option ScrapedProduct :=
  let name := trimStr (getStrOrEmpty raw_item "name")
  let price_raw := getStrOrEmpty raw_item "price"
  match _parse_price price_raw with
  | none => none
  | some price =>
    if name = "" then none
    else
      let url0 := getStrOrEmpty raw_item "url"
      let url :=
        if url0 ≠ "" ∧ ¬ url0.startsWith "http" then
          let declared_base := rstripSlash (schema_base_url.getD "")
          let fallback_base := rstripSlash base_url
          let root := if declared_base ≠ "" then declared_base else fallback_base
          root ++ "/" ++ lstripSlash url0
        else url0
      let orig_raw := getStrOrEmpty raw_item "original_price"
      let original_price := _parse_price orig_raw
      let description := trimStr (getStrOrEmpty raw_item "description")
      let category := _infer_category name description
      some
        { name := name
          brand := _infer_brand name retailer
          price := price
          original_price := original_price
          url := url
          retailer := retailer
          retailer_logo := retailer_logo
          image_url := getStrOrEmpty raw_item "image_url"
          description := description
          category := category
          in_stock := ((raw_item.get "in_stock").getD (Value.vBool true)).truthy }

/-! ### `scrape_all` (crawl4ai_scraper.py lines 494–513)

```python
results = await asyncio.gather(*tasks, return_exceptions=True)
all_products = []
for r in results:
    if isinstance(r, Exception):
        rprint(f"[red]Scrape error:[/red] {r}")
    else:
        all_products.extend(r)
return all_products
```
The embedding takes the per-source outcomes (the resolved results of the
`gather`, one per configured target, in target order): a source either
yields its product list or raises, which `return_exceptions=True` turns
into an `Exception` value.  `scrapeAllParts` additionally collects the
error messages printed by `rprint`; the function's return value is only
the product list. -/

/-- The aggregation loop of `scrape_all`: first component is the returned
`all_products`, second the console-logged error messages (one per failed
source). -/
def scrapeAllParts (outcomes : List (Except String (List ScrapedProduct))) :
    List ScrapedProduct × List String :=
  outcomes.foldl
    (fun acc r =>
      match r with
      | .error e => (acc.1, acc.2 ++ [e])
      | .ok ps => (acc.1 ++ ps, acc.2))
    ([], [])

/-- Embedding of `scrape_all`: the value actually returned to callers. -/
def scrape_all (outcomes : List (Except String (List ScrapedProduct))) :
    List ScrapedProduct :=
  (scrapeAllParts outcomes).1

/-- The product lists of the successful sources, in source order. -/
def okLists (outcomes : List (Except String (List ScrapedProduct))) :
    List (List ScrapedProduct) :=
  outcomes.filterMap
    (fun r => match r with | .ok ps => some ps | .error _ => none)

/-- The error messages of the failed sources, in source order. -/
def errMsgs (outcomes : List (Except String (List ScrapedProduct))) :
    List String :=
  outcomes.filterMap
    (fun r => match r with | .ok _ => none | .error e => some e)

/-! ### Catalog state and `upsert_products` (importer.py lines 19–73, data/models.py) -/

/-- A `Product` row (`data/models.py`).  `created_at` is omitted (set once
from the ambient clock, never read by the pipeline). -/
structure Product where
  id : Nat
  name : String
  brand : String
  category : String
  description : String
  image_url : String
  tags : String
deriving DecidableEq, Repr

/-- A `Listing` row (`data/models.py`).  `scraped_at` is the importer's
`datetime.utcnow()`, surfaced as a `Nat`.  `image_url` mirrors the
importer's `listing.image_url = sp.image_url` assignment (a transient
attribute: `Listing` declares no such column). -/
structure Listing where
  product_id : Nat
  retailer : String
  price : ℚ
  original_price : Option ℚ
  currency : String
  url : String
  retailer_logo : String
  image_url : String
  in_stock : Bool
  source : String
  scraped_at : Nat
deriving DecidableEq, Repr

/-- The catalog store visible to one `upsert_products` call: the product and
listing tables in insertion order, plus the autoincrement counter that
`db.session.flush()` draws product ids from. -/
structure Catalog where
  products : List Product
  listings : List Listing
  next_id : Nat
deriving DecidableEq, Repr

/-- The product identity test `Product.query.filter_by(name=.., brand=..)`:
exact, case-sensitive equality on the pair. -/
def pkey (sp : ScrapedProduct) (p : Product) : Bool :=
  p.name == sp.name && p.brand == sp.brand

/-- The listing identity test
`Listing.query.filter_by(product_id=.., retailer=..)`. -/
def lkey (pid : Nat) (ret : String) (l : Listing) : Bool :=
  l.product_id == pid && l.retailer == ret

/-- The in-place backfill of one matched product:
`if sp.description and not product.description: ...` and likewise for
`image_url`.  Every other column is left untouched. -/
def backfillOne (p : Product) (sp : ScrapedProduct) : Product :=
  { p with
    description :=
      if sp.description ≠ "" ∧ p.description = "" then sp.description
      else p.description
    image_url :=
      if sp.image_url ≠ "" ∧ p.image_url = "" then sp.image_url
      else p.image_url }

/-- Apply the backfill to the first `(name, brand)` match in the table (the
row `.first()` returned, mutated in place). -/
def backfillFirst (sp : ScrapedProduct) : List Product → List Product
  | [] => []
  | p :: ps =>
    if pkey sp p then backfillOne p sp :: ps
    else p :: backfillFirst sp ps

/-- The unconditional listing field writes of one upsert iteration. -/
def setListingFields (l : Listing) (sp : ScrapedProduct) (source : String)
    (t : Nat) : Listing :=
  { l with
    price := sp.price
    original_price := sp.original_price
    url := sp.url
    retailer_logo := sp.retailer_logo
    image_url := sp.image_url
    in_stock := sp.in_stock
    source := source
    scraped_at := t }

/-- A fresh `Listing(product_id=.., retailer=..)` with column defaults,
before the field writes. -/
def freshListing (pid : Nat) (ret : String) : Listing :=
  { product_id := pid, retailer := ret, price := 0, original_price := none,
    currency := "USD", url := "", retailer_logo := "", image_url := "",
    in_stock := true, source := "crawl4ai", scraped_at := 0 }

/-- Find-or-create on the listing table followed by the field writes: update
the first `(product_id, retailer)` match in place, or append a fresh row
(`db.session.add`) when none matches. -/
def writeListingFirst (pid : Nat) (sp : ScrapedProduct) (source : String)
    (t : Nat) : List Listing → List Listing
  | [] => [setListingFields (freshListing pid sp.retailer) sp source t]
  | l :: ls =>
    if lkey pid sp.retailer l then setListingFields l sp source t :: ls
    else l :: writeListingFirst pid sp source t ls

/-- The `Product(...)` constructor call on first sighting, with the id the
flush assigns. -/
def newProduct (pid : Nat) (sp : ScrapedProduct) : Product :=
  { id := pid, name := sp.name, brand := sp.brand, category := sp.category,
    description := sp.description, image_url := sp.image_url,
    tags := String.intercalate "," sp.tags }

/-- One iteration of the `for sp in scraped` loop: returns the new catalog
state and whether a product row was created. -/
def upsertOne (source : String) (t : Nat) (st : Catalog)
    (sp : ScrapedProduct) : Catalog × Bool :=
  match st.products.find? (pkey sp) with
  | some p =>
    ({ products := backfillFirst sp st.products,
       listings := writeListingFirst p.id sp source t st.listings,
       next_id := st.next_id }, false)
  | none =>
    ({ products := st.products ++ [newProduct st.next_id sp],
       listings := writeListingFirst st.next_id sp source t st.listings,
       next_id := st.next_id + 1 }, true)

/-- Embedding of `upsert_products`: returns the committed catalog and the
`(products_created, listings_upserted)` counts. -/
def upsert_products (source : String) (t : Nat) :
    List ScrapedProduct → Catalog → Catalog × Nat × Nat
  | [], st => (st, 0, 0)
  | sp :: sps, st =>
    let step := upsertOne source t st sp
    let rest := upsert_products source t sps step.1
    (rest.1, (if step.2 then 1 else 0) + rest.2.1, 1 + rest.2.2)

/-! ### Scheduler (scheduler.py lines 67–75 and 110–167) -/

/-- The process configuration the scheduler and jobs read
(`Config.OUTSCRAPER_API_KEY`). -/
structure SchedConfig where
  outscraper_api_key : String
deriving DecidableEq, Repr

/-- One job registration as `scheduler.add_job` receives it. -/
structure SchedJob where
  id : String
  name : String
  interval_hours : Nat
  first_delay_seconds : Nat
  misfire_grace_seconds : Nat
deriving DecidableEq, Repr

/-- Embedding of `start_scheduler`: the jobs it registers, in order.  The
configuration is passed in to make its (non-)use visible: the function
reads nothing from it — in particular it never consults
`outscraper_api_key` before adding `outscraper_refresh`. -/
def start_scheduler (_cfg : SchedConfig) (interval_hours : Nat) :
    List SchedJob :=
  [{ id := "crawl4ai_refresh", name := "Crawl4AI retailer scrape",
     interval_hours := interval_hours, first_delay_seconds := 300,
     misfire_grace_seconds := 3600 },
   { id := "outscraper_refresh", name := "Outscraper Google Shopping scrape",
     interval_hours := interval_hours * 2, first_delay_seconds := 600,
     misfire_grace_seconds := 3600 }]

/-- Outcome of one `_run_outscraper` tick. -/
inductive OutscraperTickResult where
  | skipped_no_key
  | completed (found created updated : Nat)
  | failed (err : String)
deriving DecidableEq, Repr

/-- Embedding of the `_run_outscraper` job body.  `outcome` is the resolved
result of `client.search_all_categories()` (the external API call): its
product list, or the exception it raised.  The `ScrapeLog` write is not
modelled; the catalog is returned unchanged on skip and on failure. -/
def _run_outscraper (cfg : SchedConfig)
    (outcome : Except String (List ScrapedProduct)) (st : Catalog)
    (t : Nat) : OutscraperTickResult × Catalog :=
  if cfg.outscraper_api_key = "" then (.skipped_no_key, st)
  else
    match outcome with
    | .error e => (.failed e, st)
    | .ok products =>
      let r := upsert_products "outscraper" t products st
      (.completed products.length r.2.1 r.2.2, r.1)

/-! ### Proof-side views of the upsert pass

The following definitions are re-expressions of `upsertOne`/`upsert_products`
used to decompose the proofs: the product-table pass, the per-record product
id resolution, and the listing-write pass.  They are related to the embedded
functions by proved lemmas, not assumed. -/

/-- First-match rule classification (used to state `_infer_category`'s
equivalence with the spec's ordered-rules reading). -/
def classifyChain (text : String) : List (List String × String) → String
  | [] => "General Wellness"
  | r :: rs => if anyIn text r.1 then r.2 else classifyChain text rs

/-- The product-table component of one upsert iteration: the product list
together with the autoincrement counter. -/
def prodStep (sp : ScrapedProduct) (pn : List Product × Nat) :
    List Product × Nat :=
  match pn.1.find? (pkey sp) with
  | some _ => (backfillFirst sp pn.1, pn.2)
  | none => (pn.1 ++ [newProduct pn.2 sp], pn.2 + 1)

/-- The product-table pass over a record list. -/
def prodApply : List ScrapedProduct → List Product × Nat → List Product × Nat
  | [], pn => pn
  | sp :: sps, pn => prodApply sps (prodStep sp pn)

/-- The product id a record's listing write uses: the id of the first
`(name, brand)` match, or the id the flush would assign. -/
def resolvePid (sp : ScrapedProduct) (pn : List Product × Nat) : Nat :=
  match pn.1.find? (pkey sp) with
  | some p => p.id
  | none => pn.2

/-- The listing-write sequence one pass performs: each record paired with
the product id it resolves to at its point in the pass. -/
def pidTrace : List Product × Nat → List ScrapedProduct →
    List (Nat × ScrapedProduct)
  | _, [] => []
  | pn, sp :: sps => (resolvePid sp pn, sp) :: pidTrace (prodStep sp pn) sps

/-- The `created` count a pass reports. -/
def createdCount : List Product × Nat → List ScrapedProduct → Nat
  | _, [] => 0
  | pn, sp :: sps =>
    (if (pn.1.find? (pkey sp)).isSome then 0 else 1)
      + createdCount (prodStep sp pn) sps

/-- Replay of a listing-write sequence. -/
def lapply (source : String) (t : Nat) :
    List (Nat × ScrapedProduct) → List Listing → List Listing
  | [], ls => ls
  | w :: ws, ls => lapply source t ws (writeListingFirst w.1 w.2 source t ls)

/-- Identity key of a product row. -/
def prodKeyOf (p : Product) : String × String := (p.name, p.brand)

/-- Identity key of a listing row. -/
def lkeyOf (l : Listing) : Nat × String := (l.product_id, l.retailer)

/-- At most one product row per exact `(name, brand)` pair. -/
def productKeyUnique (ps : List Product) : Prop :=
  List.Pairwise (fun p q => prodKeyOf p ≠ prodKeyOf q) ps

/-- At most one listing row per exact `(product, retailer)` pair. -/
def listingKeyUnique (ls : List Listing) : Prop :=
  List.Pairwise (fun l m => lkeyOf l ≠ lkeyOf m) ls

/-- Number of product rows carrying a given `(name, brand)` key. -/
def countPKey (n b : String) (ps : List Product) : Nat :=
  (ps.filter (fun p => p.name == n && p.brand == b)).length

/-- What one upsert iteration may do to any product row: identity columns
and category/tags are untouched, and populated description/image_url are
never overwritten. -/
def resightFrame (old new : Product) : Prop :=
  old.name = new.name ∧ old.brand = new.brand ∧ old.category = new.category
  ∧ old.tags = new.tags ∧ old.id = new.id
  ∧ (old.description ≠ "" → new.description = old.description)
  ∧ (old.image_url ≠ "" → new.image_url = old.image_url)

/-! ### Concrete fixtures used by counterexamples and witnesses -/

/-- A raw item whose original-price string parses below its price string. -/
def rawDiscountBelow : RawItem :=
  [("name", Value.vStr "Test Kit"), ("price", Value.vStr "$10.00"),
   ("original_price", Value.vStr "5.00")]

/-- A raw item whose `in_stock` key holds the empty string an unmatched
optional selector produces. -/
def rawEmptyStock : RawItem :=
  [("name", Value.vStr "Kit"), ("price", Value.vStr "5"),
   ("in_stock", Value.vStr "")]

/-- A minimal scraped product used by concrete runs. -/
def mkSP (name retailer : String) (price : ℚ) : ScrapedProduct :=
  { name := name, brand := "B", price := price, url := "u",
    retailer := retailer }

/-- The empty catalog. -/
def emptyCatalog : Catalog := { products := [], listings := [], next_id := 1 }

/-- A product row with a populated description, for the backfill witness. -/
def pFix : Product :=
  { id := 1, name := "X", brand := "B", category := "Pregnancy",
    description := "orig", image_url := "", tags := "" }

/-- A catalog holding `pFix`. -/
def catFix : Catalog := { products := [pFix], listings := [], next_id := 2 }

/-- A re-sighting of `pFix`'s identity carrying a different description. -/
def spFix : ScrapedProduct :=
  { name := "X", brand := "B", price := 12, url := "u2", retailer := "R2",
    description := "new" }

/-! ## Theorems -/

theorem data_mk (l : List Char) : (String.mk l).data = l := rfl

theorem firstNumberRun_eq_none_iff (cs : List Char) :
    firstNumberRun cs = none ↔ ∀ c ∈ cs, c.isDigit = false := by
  induction cs with
  | nil => simp [firstNumberRun]
  | cons c cs ih =>
    by_cases h : c.isDigit
    · rw [firstNumberRun]
      simp only [h, if_true]
      constructor
      · intro hco
        split at hco <;> simp at hco
      · intro hall
        exact absurd (hall c (by simp)) (by simp [h])
    · rw [firstNumberRun]
      simp only [h, if_false, List.forall_mem_cons, ih]
      simp only [Bool.not_eq_true] at h
      simp [h, ih]

theorem stripCommas_no_digit_iff (s : String) :
    (∀ c ∈ (stripCommas s).data, c.isDigit = false)
      ↔ ∀ c ∈ s.data, c.isDigit = false := by
  constructor
  · intro h c hc
    by_cases hcomma : c = ','
    · subst hcomma; decide
    · refine h c ?_
      simp only [stripCommas, data_mk, List.mem_filter, hc, true_and]
      simp [hcomma]
  · intro h c hc
    simp only [stripCommas, data_mk, List.mem_filter] at hc
    exact h c hc.1

/-- C5: `_parse_price` extracts the first run of digits (with optional
thousands separators and one decimal point) and rejects when no digits
occur: `"$24.99"→24.99`, `"$1,234.56"→1234.56`, `"24"→24.0`, and `""` and
`"Free"` are rejected; in general the parse rejects exactly the strings
containing no digit at all. -/
theorem parse_price_spec_examples :
    _parse_price "$24.99" = some (24.99 : ℚ)
    ∧ _parse_price "$1,234.56" = some (1234.56 : ℚ)
    ∧ _parse_price "24" = some (24.0 : ℚ)
    ∧ _parse_price "" = none
    ∧ _parse_price "Free" = none
    ∧ ∀ s : String, (_parse_price s = none ↔ ∀ c ∈ s.data, c.isDigit = false) := by
  refine ⟨?_, ?_, ?_, rfl, rfl, ?_⟩
  · have e : _parse_price "$24.99" = some (decimalVal ['2', '4'] ['9', '9']) := rfl
    have h1 : digitsVal ['2', '4'] = 24 := by decide
    have h2 : digitsVal ['9', '9'] = 99 := by decide
    rw [e]
    simp only [decimalVal, h1, h2, List.length_cons, List.length_nil]
    norm_num
  · have e : _parse_price "$1,234.56"
        = some (decimalVal ['1', '2', '3', '4'] ['5', '6']) := rfl
    have h1 : digitsVal ['1', '2', '3', '4'] = 1234 := by decide
    have h2 : digitsVal ['5', '6'] = 56 := by decide
    rw [e]
    simp only [decimalVal, h1, h2, List.length_cons, List.length_nil]
    norm_num
  · have e : _parse_price "24" = some (decimalVal ['2', '4'] []) := rfl
    have h1 : digitsVal ['2', '4'] = 24 := by decide
    have h2 : digitsVal [] = 0 := by decide
    rw [e]
    simp only [decimalVal, h1, h2, List.length_nil]
    norm_num
  · intro s
    by_cases hs : s = ""
    · subst hs
      constructor
      · intro _ c hc
        simp at hc
      · intro _
        rfl
    · rw [_parse_price, if_neg hs]
      cases hrun : firstNumberRun (stripCommas s).data with
      | none =>
        simp only [true_iff]
        rw [← stripCommas_no_digit_iff]
        exact (firstNumberRun_eq_none_iff _).mp hrun
      | some pr =>
        simp only [reduceCtorEq, false_iff]
        intro hall
        rw [← stripCommas_no_digit_iff] at hall
        rw [(firstNumberRun_eq_none_iff _).mpr hall] at hrun
        exact Option.noConfusion hrun

theorem infer_category_eq_chain (n d : String) :
    _infer_category n d = classifyChain (lowerStr (n ++ " " ++ d)) categoryRules := rfl

theorem classifyChain_eq_find (text : String) :
    ∀ rs, classifyChain text rs
      = ((rs.find? (fun r => anyIn text r.1)).map Prod.snd).getD
          "General Wellness" := by
  intro rs
  induction rs with
  | nil => rfl
  | cons r rs ih =>
    by_cases h : anyIn text r.1
    · simp [classifyChain, List.find?_cons, h]
    · simp [classifyChain, List.find?_cons, h, ih]

/-- C6: `_infer_category` classifies the lower-cased concatenation of name
and description by the fixed ordered rule list `categoryRules`, first rule
with a matching keyword substring winning, catch-all `"General Wellness"`;
and any text containing a pregnancy keyword — in particular one that also
contains a generic hormone keyword — classifies as `"Pregnancy"`.
Determinism across repeated calls is inherent: the embedding is a pure
function of its arguments. -/
theorem infer_category_rules_and_pregnancy_priority :
    (∀ n d, _infer_category n d = inferCategorySpec n d)
    ∧ (∀ n d,
        (∃ k ∈ (["pregnan", "pregnancy"] : List String),
            containsSub (lowerStr (n ++ " " ++ d)) k = true) →
        (∃ k ∈ (["hormone", "estrogen", "progesterone", "testosterone",
                 "cortisol"] : List String),
            containsSub (lowerStr (n ++ " " ++ d)) k = true) →
        _infer_category n d = "Pregnancy") := by
  constructor
  · intro n d
    rw [infer_category_eq_chain, classifyChain_eq_find]
    rfl
  · intro n d hpreg _
    have hany : anyIn (lowerStr (n ++ " " ++ d)) ["pregnan", "pregnancy"]
        = true := by
      obtain ⟨k, hk, hsub⟩ := hpreg
      exact List.any_eq_true.mpr ⟨k, hk, hsub⟩
    rw [infer_category_eq_chain]
    simp [classifyChain, categoryRules, hany]

/-- Witness for the pregnancy-priority clause of C6 at a concrete input
containing both a pregnancy keyword and a hormone keyword. -/
theorem infer_category_pregnancy_witness :
    _infer_category "Pregnancy Hormone Panel" "" = "Pregnancy" :=
  infer_category_rules_and_pregnancy_priority.2 "Pregnancy Hormone Panel" ""
    ⟨"pregnan", by decide, by decide⟩
    ⟨"hormone", by decide, by decide⟩

theorem firstBrandIn_eq_find (name : String) :
    ∀ l, firstBrandIn name l
      = l.find? (fun b => containsSub (lowerStr name) (lowerStr b)) := by
  intro l
  induction l with
  | nil => rfl
  | cons b bs ih =>
    by_cases h : containsSub (lowerStr name) (lowerStr b)
    · simp [firstBrandIn, List.find?_cons, h]
    · simp [firstBrandIn, List.find?_cons, h, ih]

/-- C8: `_infer_brand` follows the spec's priority order: (1) a direct-brand
retailer names itself; (2) otherwise the first entry of the ordered
`known_brands` list occurring case-insensitively in the product name wins;
(3) otherwise the retailer (source identifier) is the fallback — stated both
as equivalence with the spec-worded `inferBrandSpec` and clause by
clause. -/
theorem infer_brand_priority_order :
    (∀ name retailer, _infer_brand name retailer = inferBrandSpec name retailer)
    ∧ (∀ name retailer, retailer ∈ brand_sites →
        _infer_brand name retailer = retailer)
    ∧ (∀ name retailer b, retailer ∉ brand_sites →
        known_brands.find?
            (fun x => containsSub (lowerStr name) (lowerStr x)) = some b →
        _infer_brand name retailer = b)
    ∧ (∀ name retailer, retailer ∉ brand_sites →
        known_brands.find?
            (fun x => containsSub (lowerStr name) (lowerStr x)) = none →
        _infer_brand name retailer = retailer) := by
  refine ⟨?_, ?_, ?_, ?_⟩
  · intro name retailer
    unfold _infer_brand inferBrandSpec
    rw [firstBrandIn_eq_find]
    by_cases h : retailer ∈ brand_sites
    · rw [if_pos h, if_pos h]
    · rw [if_neg h, if_neg h]
      cases hfind : List.find?
          (fun b => containsSub (lowerStr name) (lowerStr b)) known_brands
        <;> simp [hfind]
  · intro name retailer h
    unfold _infer_brand
    rw [if_pos h]
  · intro name retailer b h hfind
    unfold _infer_brand
    rw [if_neg h, firstBrandIn_eq_find, hfind]
  · intro name retailer h hfind
    unfold _infer_brand
    rw [if_neg h, firstBrandIn_eq_find, hfind]

/-- Witness for C8 at a concrete input: the name contains both
`"First Response"` and `"Clearblue"`, and the earlier `known_brands` entry
(`"Clearblue"`) wins on a non-direct-brand retailer. -/
theorem infer_brand_order_witness :
    _infer_brand "First Response & Clearblue Bundle" "Amazon" = "Clearblue" :=
  infer_brand_priority_order.2.2.1 "First Response & Clearblue Bundle"
    "Amazon" "Clearblue" (by decide) (by decide)

/-- C4 (amended): the normalized record's `originalPrice` is exactly the
parse of the raw original-price string — present whenever that string
parses, absent otherwise — with no comparison against `price` at all. -/
theorem normalize_original_price_is_raw_parse
    (raw : RawItem) (retailer logo base : String) (sbu : Option String)
    (hn : trimStr (getStrOrEmpty raw "name") ≠ "")
    (hp : _parse_price (getStrOrEmpty raw "price") ≠ none) :
    Option.map ScrapedProduct.original_price
        (_normalize raw retailer logo base sbu)
      = some (_parse_price (getStrOrEmpty raw "original_price")) := by
  cases hq : _parse_price (getStrOrEmpty raw "price") with
  | none => exact absurd hq hp
  | some q => simp [_normalize, hq, hn]

/-- C4 (counterexample): on `rawDiscountBelow` the raw original price parses
to 5, which is not greater than the price 10, yet the normalized record
still carries `originalPrice = some 5` rather than none. -/
theorem normalize_original_price_counterexample :
    Option.map (fun sp => (sp.price, sp.original_price))
        (_normalize rawDiscountBelow "CVS" "" "" none)
      = some ((10 : ℚ), some (5 : ℚ))
    ∧ ¬ ((5 : ℚ) > (10 : ℚ)) := by
  constructor
  · have e : Option.map (fun sp => (sp.price, sp.original_price))
        (_normalize rawDiscountBelow "CVS" "" "" none)
        = some (decimalVal ['1', '0'] ['0', '0'],
                some (decimalVal ['5'] ['0', '0'])) := rfl
    have h1 : digitsVal ['1', '0'] = 10 := by decide
    have h2 : digitsVal ['0', '0'] = 0 := by decide
    have h3 : digitsVal ['5'] = 5 := by decide
    rw [e]
    simp only [decimalVal, h1, h2, h3, List.length_cons, List.length_nil]
    norm_num
  · norm_num

/-- Witness for the amended C4 at a concrete input with no original-price
key: the record carries `originalPrice = none`. -/
theorem normalize_original_price_witness :
    Option.map ScrapedProduct.original_price
        (_normalize rawEmptyStock "CVS" "" "" none)
      = some (_parse_price (getStrOrEmpty rawEmptyStock "original_price")) :=
  normalize_original_price_is_raw_parse rawEmptyStock "CVS" "" "" none
    (by decide) (by decide)

/-- C10: the normalized stock flag is the Python truthiness of the raw
`in_stock` value, defaulting to `true` exactly when the key is absent; a
present falsy value (empty string, `False`) yields `in_stock = false`. -/
theorem normalize_in_stock_semantics
    (raw : RawItem) (retailer logo base : String) (sbu : Option String)
    (hn : trimStr (getStrOrEmpty raw "name") ≠ "")
    (hp : _parse_price (getStrOrEmpty raw "price") ≠ none) :
    Option.map ScrapedProduct.in_stock (_normalize raw retailer logo base sbu)
      = some (((raw.get "in_stock").getD (Value.vBool true)).truthy)
    ∧ (raw.get "in_stock" = none →
        Option.map ScrapedProduct.in_stock
          (_normalize raw retailer logo base sbu) = some true)
    ∧ (∀ v, raw.get "in_stock" = some v →
        Option.map ScrapedProduct.in_stock
          (_normalize raw retailer logo base sbu) = some v.truthy) := by
  have hmain : Option.map ScrapedProduct.in_stock
      (_normalize raw retailer logo base sbu)
      = some (((raw.get "in_stock").getD (Value.vBool true)).truthy) := by
    cases hq : _parse_price (getStrOrEmpty raw "price") with
    | none => exact absurd hq hp
    | some q => simp [_normalize, hq, hn]
  refine ⟨hmain, ?_, ?_⟩
  · intro habs
    rw [hmain, habs]
    rfl
  · intro v hv
    rw [hmain, hv]
    rfl

/-- Witness for C10 at a concrete input whose `in_stock` key holds the
empty string: the record reports out of stock. -/
theorem normalize_in_stock_witness :
    Option.map ScrapedProduct.in_stock
        (_normalize rawEmptyStock "CVS" "" "" none) = some false :=
  (normalize_in_stock_semantics rawEmptyStock "CVS" "" "" none
      (by decide) (by decide)).2.2 (Value.vStr "") (by decide)

theorem scrapeAll_foldl_acc :
    ∀ (outcomes : List (Except String (List ScrapedProduct)))
      (ps : List ScrapedProduct) (es : List String),
      outcomes.foldl
        (fun acc r =>
          match r with
          | .error e => (acc.1, acc.2 ++ [e])
          | .ok l => (acc.1 ++ l, acc.2)) (ps, es)
      = (ps ++ (okLists outcomes).flatten, es ++ errMsgs outcomes) := by
  intro outcomes
  induction outcomes with
  | nil =>
    intro ps es
    simp [okLists, errMsgs]
  | cons r rest ih =>
    intro ps es
    cases r with
    | ok l =>
      simp only [List.foldl_cons]
      rw [ih]
      simp [okLists, errMsgs, List.filterMap_cons]
    | error e =>
      simp only [List.foldl_cons]
      rw [ih]
      simp [okLists, errMsgs, List.filterMap_cons]

/-- C1 (amended): a failed source is caught and isolated — the return value
of `scrape_all` is exactly the concatenation of the successful sources'
record lists, in source order with each source's internal order preserved —
and each failed source contributes exactly one console-logged error message;
but no failure entry appears in the returned value itself, which carries the
products only. -/
theorem scrape_all_isolates_failures
    (outcomes : List (Except String (List ScrapedProduct))) :
    scrape_all outcomes = (okLists outcomes).flatten
    ∧ (scrapeAllParts outcomes).2 = errMsgs outcomes := by
  have h := scrapeAll_foldl_acc outcomes [] []
  unfold scrape_all scrapeAllParts
  unfold scrapeAllParts at h
  rw [h]
  simp

/-- C1 (counterexample): with sources A, B, C where B raises a timeout and
A, C yield 2 and 3 records, `scrape_all` returns exactly the 5 records —
and its return value is identical to that of a run in which B was never
configured at all, so the result contains no failure entry for B (the
failure is only printed, not returned). -/
theorem scrape_all_no_failure_entry_counterexample :
    scrape_all [Except.ok [mkSP "A1" "A" 1, mkSP "A2" "A" 2],
                Except.error "timeout",
                Except.ok [mkSP "C1" "C" 3, mkSP "C2" "C" 4, mkSP "C3" "C" 5]]
      = [mkSP "A1" "A" 1, mkSP "A2" "A" 2,
         mkSP "C1" "C" 3, mkSP "C2" "C" 4, mkSP "C3" "C" 5]
    ∧ scrape_all [Except.ok [mkSP "A1" "A" 1, mkSP "A2" "A" 2],
                  Except.error "timeout",
                  Except.ok [mkSP "C1" "C" 3, mkSP "C2" "C" 4, mkSP "C3" "C" 5]]
      = scrape_all [Except.ok [mkSP "A1" "A" 1, mkSP "A2" "A" 2],
                    Except.ok [mkSP "C1" "C" 3, mkSP "C2" "C" 4,
                               mkSP "C3" "C" 5]] := by
  exact ⟨rfl, rfl⟩

/-- C9 (counterexample): with the Outscraper API key missing (empty string),
`start_scheduler` registers the `outscraper_refresh` job anyway, and the
missing credential is instead detected inside `_run_outscraper` when the
tick fires, which skips the run. -/
theorem scheduler_missing_key_counterexample :
    (start_scheduler { outscraper_api_key := "" } 24).map SchedJob.id
      = ["crawl4ai_refresh", "outscraper_refresh"]
    ∧ (_run_outscraper { outscraper_api_key := "" } (Except.ok [])
          emptyCatalog 0).1
      = OutscraperTickResult.skipped_no_key :=
  ⟨rfl, rfl⟩

/-- C9 (amended): the registered job list is independent of the configured
credential — `start_scheduler` never consults it — and the
missing-credential check runs inside the job body on every tick: an empty
key makes every tick skip (leaving the catalog unchanged) and a non-empty
key lets the tick proceed to the fetch outcome. -/
theorem scheduler_key_checked_per_tick (cfg : SchedConfig) (n : Nat) :
    start_scheduler cfg n = start_scheduler { outscraper_api_key := "" } n
    ∧ (cfg.outscraper_api_key = "" →
        ∀ o st t, _run_outscraper cfg o st t
          = (OutscraperTickResult.skipped_no_key, st))
    ∧ (cfg.outscraper_api_key ≠ "" →
        ∀ e st t, _run_outscraper cfg (Except.error e) st t
          = (OutscraperTickResult.failed e, st)) := by
  refine ⟨rfl, ?_, ?_⟩
  · intro h o st t
    simp [_run_outscraper, h]
  · intro h e st t
    simp [_run_outscraper, h]

/-- Witness for C9 (amended) at a concrete configuration with a key set:
the tick proceeds and surfaces the fetch failure. -/
theorem scheduler_key_checked_witness :
    _run_outscraper { outscraper_api_key := "k" } (Except.error "boom")
        emptyCatalog 0 = (OutscraperTickResult.failed "boom", emptyCatalog) :=
  (scheduler_key_checked_per_tick { outscraper_api_key := "k" } 24).2.2
    (by decide) "boom" emptyCatalog 0

/-! ### Upsert engine: decomposition into product pass and listing writes -/

theorem upsertOne_decomp (source : String) (t : Nat) (st : Catalog)
    (sp : ScrapedProduct) :
    upsertOne source t st sp
      = ({ products := (prodStep sp (st.products, st.next_id)).1,
           listings := writeListingFirst
             (resolvePid sp (st.products, st.next_id)) sp source t st.listings,
           next_id := (prodStep sp (st.products, st.next_id)).2 },
         !(st.products.find? (pkey sp)).isSome) := by
  unfold upsertOne prodStep resolvePid
  cases h : st.products.find? (pkey sp) <;> simp [h]

theorem upsert_products_decomp (source : String) (t : Nat) :
    ∀ (sps : List ScrapedProduct) (st : Catalog),
      upsert_products source t sps st
        = ({ products := (prodApply sps (st.products, st.next_id)).1,
             listings := lapply source t
               (pidTrace (st.products, st.next_id) sps) st.listings,
             next_id := (prodApply sps (st.products, st.next_id)).2 },
           createdCount (st.products, st.next_id) sps, sps.length) := by
  intro sps
  induction sps with
  | nil =>
    intro st
    rfl
  | cons sp sps ih =>
    intro st
    rw [upsert_products, upsertOne_decomp]
    rw [ih]
    simp only [prodApply, pidTrace, createdCount, lapply, List.length_cons]
    cases h : (st.products.find? (pkey sp)).isSome <;> simp [h] <;> omega

/-! ### Product-pass lemmas -/

theorem pkey_backfillOne (sp' sp : ScrapedProduct) (p : Product) :
    pkey sp' (backfillOne p sp) = pkey sp' p := rfl

theorem id_backfillOne (sp : ScrapedProduct) (p : Product) :
    (backfillOne p sp).id = p.id := rfl

theorem backfillOne_noop_of (p : Product) (sp : ScrapedProduct)
    (hd : ¬(sp.description ≠ "" ∧ p.description = ""))
    (hi : ¬(sp.image_url ≠ "" ∧ p.image_url = "")) :
    backfillOne p sp = p := by
  unfold backfillOne
  rw [if_neg hd, if_neg hi]

theorem backfillOne_newProduct (n : Nat) (sp : ScrapedProduct) :
    backfillOne (newProduct n sp) sp = newProduct n sp := by
  refine backfillOne_noop_of _ _ ?_ ?_
  · intro hc
    exact hc.1 hc.2
  · intro hc
    exact hc.1 hc.2

theorem backfillOne_description (p : Product) (sp : ScrapedProduct) :
    (backfillOne p sp).description
      = if sp.description ≠ "" ∧ p.description = "" then sp.description
        else p.description := rfl

theorem backfillOne_image_url (p : Product) (sp : ScrapedProduct) :
    (backfillOne p sp).image_url
      = if sp.image_url ≠ "" ∧ p.image_url = "" then sp.image_url
        else p.image_url := rfl

theorem backfillOne_absorb (p : Product) (sp : ScrapedProduct) :
    backfillOne (backfillOne p sp) sp = backfillOne p sp := by
  refine backfillOne_noop_of _ _ ?_ ?_
  · intro hc
    rw [backfillOne_description] at hc
    by_cases h : sp.description ≠ "" ∧ p.description = ""
    · rw [if_pos h] at hc
      exact hc.1 hc.2
    · rw [if_neg h] at hc
      exact h hc
  · intro hc
    rw [backfillOne_image_url] at hc
    by_cases h : sp.image_url ≠ "" ∧ p.image_url = ""
    · rw [if_pos h] at hc
      exact hc.1 hc.2
    · rw [if_neg h] at hc
      exact h hc

theorem backfillOne_noop_pointwise (p : Product) (sp sp' : ScrapedProduct)
    (h : backfillOne p sp = p) :
    backfillOne (backfillOne p sp') sp = backfillOne p sp' := by
  have hd : ¬(sp.description ≠ "" ∧ p.description = "") := by
    intro hc
    have hh := congrArg Product.description h
    rw [backfillOne_description, if_pos hc] at hh
    exact hc.1 (hh.trans hc.2)
  have hi : ¬(sp.image_url ≠ "" ∧ p.image_url = "") := by
    intro hc
    have hh := congrArg Product.image_url h
    rw [backfillOne_image_url, if_pos hc] at hh
    exact hc.1 (hh.trans hc.2)
  refine backfillOne_noop_of _ _ ?_ ?_
  · intro hc
    have hp : p.description ≠ "" := fun hpe => hd ⟨hc.1, hpe⟩
    have hq := hc.2
    rw [backfillOne_description] at hq
    by_cases h' : sp'.description ≠ "" ∧ p.description = ""
    · exact hp h'.2
    · rw [if_neg h'] at hq
      exact hp hq
  · intro hc
    have hp : p.image_url ≠ "" := fun hpe => hi ⟨hc.1, hpe⟩
    have hq := hc.2
    rw [backfillOne_image_url] at hq
    by_cases h' : sp'.image_url ≠ "" ∧ p.image_url = ""
    · exact hp h'.2
    · rw [if_neg h'] at hq
      exact hp hq

theorem find?_append_of_some {α} (p : α → Bool) :
    ∀ (l₁ : List α) (a : α) (l₂ : List α),
      l₁.find? p = some a → (l₁ ++ l₂).find? p = some a := by
  intro l₁
  induction l₁ with
  | nil =>
    intro a l₂ h
    exact absurd h (by simp)
  | cons x l₁ ih =>
    intro a l₂ h
    by_cases hx : p x
    · rw [List.find?_cons_of_pos _ hx] at h
      rw [List.cons_append, List.find?_cons_of_pos _ hx]
      exact h
    · rw [List.find?_cons_of_neg _ hx] at h
      rw [List.cons_append, List.find?_cons_of_neg _ hx]
      exact ih a l₂ h

theorem find?_append_of_none {α} (p : α → Bool) :
    ∀ (l₁ l₂ : List α),
      l₁.find? p = none → (l₁ ++ l₂).find? p = l₂.find? p := by
  intro l₁
  induction l₁ with
  | nil =>
    intro l₂ _
    rfl
  | cons x l₁ ih =>
    intro l₂ h
    by_cases hx : p x
    · rw [List.find?_cons_of_pos _ hx] at h
      exact absurd h (by simp)
    · rw [List.find?_cons_of_neg _ hx] at h
      rw [List.cons_append, List.find?_cons_of_neg _ hx]
      exact ih l₂ h

theorem backfillFirst_append_left (sp : ScrapedProduct) (qs : List Product) :
    ∀ ps : List Product, (ps.find? (pkey sp)).isSome = true →
      backfillFirst sp (ps ++ qs) = backfillFirst sp ps ++ qs := by
  intro ps
  induction ps with
  | nil =>
    intro h
    simp at h
  | cons p ps ih =>
    intro h
    by_cases hp : pkey sp p
    · rw [List.cons_append, backfillFirst, if_pos hp, backfillFirst, if_pos hp]
      rfl
    · rw [List.find?_cons_of_neg _ hp] at h
      rw [List.cons_append, backfillFirst, if_neg hp, backfillFirst, if_neg hp,
        ih h]
      rfl

theorem backfillFirst_append_none (sp : ScrapedProduct) (qs : List Product) :
    ∀ ps : List Product, ps.find? (pkey sp) = none →
      backfillFirst sp (ps ++ qs) = ps ++ backfillFirst sp qs := by
  intro ps
  induction ps with
  | nil =>
    intro _
    rfl
  | cons p ps ih =>
    intro h
    by_cases hp : pkey sp p
    · rw [List.find?_cons_of_pos _ hp] at h
      exact absurd h (by simp)
    · rw [List.find?_cons_of_neg _ hp] at h
      rw [List.cons_append, backfillFirst, if_neg hp, ih h]
      rfl

theorem find?_backfillFirst_self (sp : ScrapedProduct) :
    ∀ ps : List Product,
      (backfillFirst sp ps).find? (pkey sp)
        = (ps.find? (pkey sp)).map (fun p => backfillOne p sp) := by
  intro ps
  induction ps with
  | nil => rfl
  | cons p ps ih =>
    by_cases hp : pkey sp p
    · have hp' : pkey sp (backfillOne p sp) = true := by
        rw [pkey_backfillOne]
        exact hp
      rw [backfillFirst, if_pos hp, List.find?_cons_of_pos _ hp',
        List.find?_cons_of_pos _ hp]
      rfl
    · have hp' : ¬ pkey sp p = true := hp
      rw [backfillFirst, if_neg hp, List.find?_cons_of_neg _ hp',
        List.find?_cons_of_neg _ hp']
      exact ih

theorem find?_backfillFirst_map_id (sp' sp : ScrapedProduct) :
    ∀ ps : List Product,
      Option.map Product.id ((backfillFirst sp' ps).find? (pkey sp))
        = Option.map Product.id (ps.find? (pkey sp)) := by
  intro ps
  induction ps with
  | nil => rfl
  | cons p ps ih =>
    by_cases hp' : pkey sp' p
    · rw [backfillFirst, if_pos hp']
      by_cases hp : pkey sp p
      · have h1 : pkey sp (backfillOne p sp') = true := by
          rw [pkey_backfillOne]
          exact hp
        rw [List.find?_cons_of_pos _ h1, List.find?_cons_of_pos _ hp]
        simp [id_backfillOne]
      · have h1 : ¬ pkey sp (backfillOne p sp') = true := by
          rw [pkey_backfillOne]
          exact hp
        rw [List.find?_cons_of_neg _ h1, List.find?_cons_of_neg _ hp]
    · rw [backfillFirst, if_neg hp']
      by_cases hp : pkey sp p
      · rw [List.find?_cons_of_pos _ hp, List.find?_cons_of_pos _ hp]
      · rw [List.find?_cons_of_neg _ hp, List.find?_cons_of_neg _ hp]
        exact ih

theorem isSome_find?_backfillFirst (sp' sp : ScrapedProduct)
    (ps : List Product) :
    ((backfillFirst sp' ps).find? (pkey sp)).isSome
      = (ps.find? (pkey sp)).isSome := by
  have h := find?_backfillFirst_map_id sp' sp ps
  have h2 := congrArg Option.isSome h
  simpa using h2

theorem pkey_newProduct (sp : ScrapedProduct) (n : Nat) :
    pkey sp (newProduct n sp) = true := by
  simp [pkey, newProduct]

theorem backfillFirst_idem (sp : ScrapedProduct) :
    ∀ ps : List Product,
      backfillFirst sp (backfillFirst sp ps) = backfillFirst sp ps := by
  intro ps
  induction ps with
  | nil => rfl
  | cons p ps ih =>
    by_cases hp : pkey sp p
    · have hp' : pkey sp (backfillOne p sp) = true := by
        rw [pkey_backfillOne]
        exact hp
      rw [backfillFirst, if_pos hp, backfillFirst, if_pos hp',
        backfillOne_absorb]
    · rw [backfillFirst, if_neg hp, backfillFirst, if_neg hp, ih]

theorem backfillFirst_noop_pres (sp sp' : ScrapedProduct) :
    ∀ ps : List Product, backfillFirst sp ps = ps →
      backfillFirst sp (backfillFirst sp' ps) = backfillFirst sp' ps := by
  intro ps
  induction ps with
  | nil =>
    intro _
    rfl
  | cons p ps ih =>
    intro h
    by_cases h' : pkey sp' p
    · rw [backfillFirst, if_pos h']
      by_cases hsp : pkey sp p
      · rw [backfillFirst, if_pos hsp] at h
        have hone : backfillOne p sp = p := (List.cons.injEq _ _ _ _ ▸ h).1
        have hkey : pkey sp (backfillOne p sp') = true := by
          rw [pkey_backfillOne]
          exact hsp
        rw [backfillFirst, if_pos hkey, backfillOne_noop_pointwise p sp sp' hone]
      · rw [backfillFirst, if_neg hsp] at h
        have htail : backfillFirst sp ps = ps := (List.cons.injEq _ _ _ _ ▸ h).2
        have hkey : ¬ pkey sp (backfillOne p sp') = true := by
          rw [pkey_backfillOne]
          exact hsp
        rw [backfillFirst, if_neg hkey, htail]
    · rw [backfillFirst, if_neg h']
      by_cases hsp : pkey sp p
      · rw [backfillFirst, if_pos hsp] at h
        have hone : backfillOne p sp = p := (List.cons.injEq _ _ _ _ ▸ h).1
        rw [backfillFirst, if_pos hsp, hone]
      · rw [backfillFirst, if_neg hsp] at h
        have htail : backfillFirst sp ps = ps := (List.cons.injEq _ _ _ _ ▸ h).2
        rw [backfillFirst, if_neg hsp, ih htail]

theorem find?_append_new (sp : ScrapedProduct) (ps : List Product) (n : Nat)
    (h : ps.find? (pkey sp) = none) :
    (ps ++ [newProduct n sp]).find? (pkey sp) = some (newProduct n sp) := by
  rw [find?_append_of_none _ _ _ h,
    List.find?_cons_of_pos _ (pkey_newProduct sp n)]

theorem prodStep_self_absorb (sp : ScrapedProduct) (pn : List Product × Nat) :
    prodStep sp (prodStep sp pn) = prodStep sp pn := by
  obtain ⟨ps, n⟩ := pn
  unfold prodStep
  cases hf : ps.find? (pkey sp) with
  | some p =>
    simp only [hf]
    have h2 : (backfillFirst sp ps).find? (pkey sp)
        = some (backfillOne p sp) := by
      rw [find?_backfillFirst_self, hf]
      rfl
    simp only [h2, backfillFirst_idem]
  | none =>
    simp only [hf]
    have h2 := find?_append_new sp ps n hf
    simp only [h2]
    rw [backfillFirst_append_none _ _ _ hf, backfillFirst,
      if_pos (pkey_newProduct sp n), backfillOne_newProduct]

theorem prodStep_handled_parts (sp : ScrapedProduct) (pn : List Product × Nat)
    (h : prodStep sp pn = pn) :
    (pn.1.find? (pkey sp)).isSome = true ∧ backfillFirst sp pn.1 = pn.1 := by
  obtain ⟨ps, n⟩ := pn
  unfold prodStep at h
  cases hf : ps.find? (pkey sp) with
  | none =>
    rw [hf] at h
    have h2 := congrArg Prod.snd h
    simp at h2
  | some p =>
    rw [hf] at h
    exact ⟨by simp [hf], congrArg Prod.fst h⟩

theorem prodStep_handled_mono (sp sp' : ScrapedProduct)
    (pn : List Product × Nat) (h : prodStep sp pn = pn) :
    prodStep sp (prodStep sp' pn) = prodStep sp' pn := by
  obtain ⟨ps, n⟩ := pn
  obtain ⟨hsome, hbf⟩ := prodStep_handled_parts sp (ps, n) h
  simp only at hsome hbf
  unfold prodStep
  cases hf' : ps.find? (pkey sp') with
  | some p' =>
    simp only [hf']
    cases h2 : (backfillFirst sp' ps).find? (pkey sp) with
    | none =>
      have hiss := isSome_find?_backfillFirst sp' sp ps
      rw [h2, hsome] at hiss
      simp at hiss
    | some q =>
      simp only [h2]
      rw [backfillFirst_noop_pres sp sp' ps hbf]
  | none =>
    simp only [hf']
    obtain ⟨p, hp⟩ := Option.isSome_iff_exists.mp hsome
    have h2 := find?_append_of_some (pkey sp) ps p [newProduct n sp'] hp
    simp only [h2]
    rw [backfillFirst_append_left _ _ _ hsome, hbf]

theorem prodStep_handled_apply (sp : ScrapedProduct) :
    ∀ (sps : List ScrapedProduct) (pn : List Product × Nat),
      prodStep sp pn = pn →
      prodStep sp (prodApply sps pn) = prodApply sps pn := by
  intro sps
  induction sps with
  | nil =>
    intro pn h
    exact h
  | cons sp' sps ih =>
    intro pn h
    rw [prodApply]
    exact ih (prodStep sp' pn) (prodStep_handled_mono sp sp' pn h)

theorem prodApply_all_handled :
    ∀ (sps : List ScrapedProduct) (pn : List Product × Nat)
      (sp : ScrapedProduct), sp ∈ sps →
      prodStep sp (prodApply sps pn) = prodApply sps pn := by
  intro sps
  induction sps with
  | nil =>
    intro pn sp h
    exact absurd h (List.not_mem_nil sp)
  | cons sp' sps ih =>
    intro pn sp h
    rw [prodApply]
    rcases List.mem_cons.mp h with he | hm
    · subst he
      exact prodStep_handled_apply sp sps (prodStep sp pn)
        (prodStep_self_absorb sp pn)
    · exact ih (prodStep sp' pn) sp hm

theorem prodApply_noop :
    ∀ (sps : List ScrapedProduct) (pn : List Product × Nat),
      (∀ sp ∈ sps, prodStep sp pn = pn) → prodApply sps pn = pn := by
  intro sps
  induction sps with
  | nil =>
    intro pn _
    rfl
  | cons sp sps ih =>
    intro pn h
    rw [prodApply, h sp (List.mem_cons_self sp sps)]
    exact ih pn (fun x hx => h x (List.mem_cons_of_mem sp hx))

theorem prodApply_idem (sps : List ScrapedProduct) (pn : List Product × Nat) :
    prodApply sps (prodApply sps pn) = prodApply sps pn :=
  prodApply_noop sps _ (fun sp h => prodApply_all_handled sps pn sp h)

theorem createdCount_zero :
    ∀ (sps : List ScrapedProduct) (pn : List Product × Nat),
      (∀ sp ∈ sps, prodStep sp pn = pn) → createdCount pn sps = 0 := by
  intro sps
  induction sps with
  | nil =>
    intro pn _
    rfl
  | cons sp sps ih =>
    intro pn h
    have hsp := h sp (List.mem_cons_self sp sps)
    obtain ⟨hsome, _⟩ := prodStep_handled_parts sp pn hsp
    rw [createdCount, hsp, hsome]
    simp [ih pn (fun x hx => h x (List.mem_cons_of_mem sp hx))]

theorem resolvePid_eq (sp : ScrapedProduct) (pn : List Product × Nat) :
    resolvePid sp pn = ((pn.1.find? (pkey sp)).map Product.id).getD pn.2 := by
  unfold resolvePid
  cases h : pn.1.find? (pkey sp) <;> rfl

theorem resolvePid_step_self (sp : ScrapedProduct) (pn : List Product × Nat) :
    resolvePid sp (prodStep sp pn) = resolvePid sp pn := by
  obtain ⟨ps, n⟩ := pn
  rw [resolvePid_eq, resolvePid_eq]
  unfold prodStep
  cases hf : ps.find? (pkey sp) with
  | some p =>
    simp only [hf]
    have h2 : (backfillFirst sp ps).find? (pkey sp)
        = some (backfillOne p sp) := by
      rw [find?_backfillFirst_self, hf]
      rfl
    simp [h2, id_backfillOne]
  | none =>
    simp only [hf]
    rw [find?_append_new sp ps n hf]
    simp [newProduct]

theorem prodStep_self_present (sp : ScrapedProduct) (pn : List Product × Nat) :
    ((prodStep sp pn).1.find? (pkey sp)).isSome = true :=
  (prodStep_handled_parts sp (prodStep sp pn) (prodStep_self_absorb sp pn)).1

theorem resolvePid_mono (sp sp' : ScrapedProduct) (pn : List Product × Nat)
    (hp : (pn.1.find? (pkey sp)).isSome = true) :
    resolvePid sp (prodStep sp' pn) = resolvePid sp pn
    ∧ ((prodStep sp' pn).1.find? (pkey sp)).isSome = true := by
  obtain ⟨ps, n⟩ := pn
  simp only at hp
  rw [resolvePid_eq, resolvePid_eq]
  unfold prodStep
  cases hf' : ps.find? (pkey sp') with
  | some p' =>
    simp only [hf']
    refine ⟨?_, ?_⟩
    · rw [find?_backfillFirst_map_id]
    · rw [isSome_find?_backfillFirst]
      exact hp
  | none =>
    simp only [hf']
    obtain ⟨p, hpp⟩ := Option.isSome_iff_exists.mp hp
    have h2 := find?_append_of_some (pkey sp) ps p [newProduct n sp'] hpp
    rw [h2, hpp]
    exact ⟨rfl, rfl⟩

theorem resolvePid_apply (sp : ScrapedProduct) :
    ∀ (sps : List ScrapedProduct) (pn : List Product × Nat),
      (pn.1.find? (pkey sp)).isSome = true →
      resolvePid sp (prodApply sps pn) = resolvePid sp pn
      ∧ ((prodApply sps pn).1.find? (pkey sp)).isSome = true := by
  intro sps
  induction sps with
  | nil =>
    intro pn hp
    exact ⟨rfl, hp⟩
  | cons sp' sps ih =>
    intro pn hp
    obtain ⟨h1, h2⟩ := resolvePid_mono sp sp' pn hp
    obtain ⟨h3, h4⟩ := ih (prodStep sp' pn) h2
    rw [prodApply]
    exact ⟨h3.trans h1, h4⟩

theorem pidTrace_final :
    ∀ (sps : List ScrapedProduct) (pn : List Product × Nat),
      pidTrace pn sps = pidTrace (prodApply sps pn) sps := by
  intro sps
  induction sps with
  | nil =>
    intro pn
    rfl
  | cons sp sps ih =>
    intro pn
    have hQ : prodApply (sp :: sps) pn = prodApply sps (prodStep sp pn) := rfl
    rw [pidTrace, pidTrace]
    have hhead : resolvePid sp (prodApply (sp :: sps) pn) = resolvePid sp pn := by
      rw [hQ]
      have h1 := (resolvePid_apply sp sps (prodStep sp pn)
        (prodStep_self_present sp pn)).1
      rw [h1, resolvePid_step_self]
    have htail : prodStep sp (prodApply (sp :: sps) pn)
        = prodApply (sp :: sps) pn :=
      prodApply_all_handled (sp :: sps) pn sp (List.mem_cons_self sp sps)
    rw [hhead, htail, hQ, ih (prodStep sp pn)]

/-! ### Listing-write lemmas -/

theorem lkey_setListingFields (pid : Nat) (ret : String) (l : Listing)
    (sp : ScrapedProduct) (s : String) (t : Nat) :
    lkey pid ret (setListingFields l sp s t) = lkey pid ret l := rfl

theorem setListingFields_absorb (l : Listing) (sp sp' : ScrapedProduct)
    (s s' : String) (t t' : Nat) :
    setListingFields (setListingFields l sp s t) sp' s' t'
      = setListingFields l sp' s' t' := rfl

theorem lkey_freshListing (pid : Nat) (ret : String) :
    lkey pid ret (freshListing pid ret) = true := by
  simp [lkey, freshListing]

theorem lkey_both_eq (pid pid' : Nat) (ret ret' : String) (l : Listing)
    (h1 : lkey pid ret l = true) (h2 : lkey pid' ret' l = true) :
    pid = pid' ∧ ret = ret' := by
  simp only [lkey, Bool.and_eq_true, beq_iff_eq] at h1 h2
  exact ⟨h1.1 ▸ h2.1, h1.2 ▸ h2.2⟩

theorem writeListingFirst_nil (pid : Nat) (sp : ScrapedProduct) (s : String)
    (t : Nat) :
    writeListingFirst pid sp s t []
      = [setListingFields (freshListing pid sp.retailer) sp s t] := rfl

theorem writeListingFirst_cons_pos (pid : Nat) (sp : ScrapedProduct)
    (s : String) (t : Nat) (l : Listing) (ls : List Listing)
    (h : lkey pid sp.retailer l = true) :
    writeListingFirst pid sp s t (l :: ls)
      = setListingFields l sp s t :: ls := by
  rw [writeListingFirst, if_pos h]

theorem writeListingFirst_cons_neg (pid : Nat) (sp : ScrapedProduct)
    (s : String) (t : Nat) (l : Listing) (ls : List Listing)
    (h : ¬ lkey pid sp.retailer l = true) :
    writeListingFirst pid sp s t (l :: ls)
      = l :: writeListingFirst pid sp s t ls := by
  rw [writeListingFirst, if_neg h]

theorem writeListingFirst_absorb (pid : Nat) (sp sp' : ScrapedProduct)
    (s s' : String) (t t' : Nat) (hk : sp'.retailer = sp.retailer) :
    ∀ ls, writeListingFirst pid sp' s' t' (writeListingFirst pid sp s t ls)
      = writeListingFirst pid sp' s' t' ls := by
  intro ls
  induction ls with
  | nil =>
    rw [writeListingFirst_nil, writeListingFirst_nil,
      writeListingFirst_cons_pos _ _ _ _ _ _
        (by rw [lkey_setListingFields, hk]; exact lkey_freshListing pid _),
      setListingFields_absorb, hk]
  | cons l ls ih =>
    by_cases h : lkey pid sp.retailer l
    · have h' : lkey pid sp'.retailer l = true := by
        rw [hk]
        exact h
      rw [writeListingFirst_cons_pos _ _ _ _ _ _ h,
        writeListingFirst_cons_pos _ _ _ _ _ _
          (by rw [lkey_setListingFields]; exact h'),
        setListingFields_absorb, writeListingFirst_cons_pos _ _ _ _ _ _ h']
    · have h' : ¬ lkey pid sp'.retailer l = true := by
        rw [hk]
        exact h
      rw [writeListingFirst_cons_neg _ _ _ _ _ _ h,
        writeListingFirst_cons_neg _ _ _ _ _ _ h',
        writeListingFirst_cons_neg _ _ _ _ _ _ h', ih]

theorem writeListingFirst_comm (pid pid' : Nat) (sp sp' : ScrapedProduct)
    (s : String) (t : Nat)
    (hk : ¬(pid = pid' ∧ sp.retailer = sp'.retailer)) :
    ∀ ls, (ls.find? (lkey pid sp.retailer)).isSome = true →
      writeListingFirst pid' sp' s t (writeListingFirst pid sp s t ls)
        = writeListingFirst pid sp s t (writeListingFirst pid' sp' s t ls) := by
  intro ls
  induction ls with
  | nil =>
    intro hp
    simp at hp
  | cons l ls ih =>
    intro hp
    by_cases h1 : lkey pid sp.retailer l
    · have h2 : ¬ lkey pid' sp'.retailer l = true := fun h2 =>
        hk (lkey_both_eq pid pid' sp.retailer sp'.retailer l h1 h2)
      rw [writeListingFirst_cons_pos _ _ _ _ _ _ h1,
        writeListingFirst_cons_neg _ _ _ _ _ _
          (by rw [lkey_setListingFields]; exact h2),
        writeListingFirst_cons_neg _ _ _ _ _ _ h2,
        writeListingFirst_cons_pos _ _ _ _ _ _ h1]
    · by_cases h2 : lkey pid' sp'.retailer l
      · rw [writeListingFirst_cons_neg _ _ _ _ _ _ h1,
          writeListingFirst_cons_pos _ _ _ _ _ _ h2,
          writeListingFirst_cons_pos _ _ _ _ _ _ h2,
          writeListingFirst_cons_neg _ _ _ _ _ _
            (show ¬ lkey pid sp.retailer (setListingFields l sp' s t) = true by
              rw [lkey_setListingFields]; exact h1)]
      · rw [List.find?_cons_of_neg _ h1] at hp
        rw [writeListingFirst_cons_neg _ _ _ _ _ _ h1,
          writeListingFirst_cons_neg _ _ _ _ _ _ h2,
          writeListingFirst_cons_neg _ _ _ _ _ _ h2,
          writeListingFirst_cons_neg _ _ _ _ _ _ h1, ih hp]

theorem isSome_find?_write (pid' : Nat) (sp' : ScrapedProduct) (s : String)
    (t : Nat) (pid : Nat) (ret : String) :
    ∀ ls, (ls.find? (lkey pid ret)).isSome = true →
      ((writeListingFirst pid' sp' s t ls).find? (lkey pid ret)).isSome
        = true := by
  intro ls
  induction ls with
  | nil =>
    intro hp
    simp at hp
  | cons l ls ih =>
    intro hp
    by_cases hw : lkey pid' sp'.retailer l
    · rw [writeListingFirst_cons_pos _ _ _ _ _ _ hw]
      by_cases hl : lkey pid ret l
      · rw [List.find?_cons_of_pos _
          (by rw [lkey_setListingFields]; exact hl)]
        rfl
      · rw [List.find?_cons_of_neg _ hl] at hp
        rw [List.find?_cons_of_neg _
          (by rw [lkey_setListingFields]; exact hl)]
        exact hp
    · rw [writeListingFirst_cons_neg _ _ _ _ _ _ hw]
      by_cases hl : lkey pid ret l
      · rw [List.find?_cons_of_pos _ hl]
        rfl
      · rw [List.find?_cons_of_neg _ hl] at hp
        rw [List.find?_cons_of_neg _ hl]
        exact ih hp

theorem lkey_freshListing_other (pid pid' : Nat) (ret ret' : String)
    (hk : ¬(pid = pid' ∧ ret = ret')) :
    ¬ lkey pid ret (freshListing pid' ret') = true := by
  intro h
  simp only [lkey, freshListing, Bool.and_eq_true, beq_iff_eq] at h
  exact hk ⟨h.1.symm, h.2.symm⟩

theorem find?_write_other (pid' : Nat) (sp' : ScrapedProduct) (s : String)
    (t : Nat) (pid : Nat) (ret : String)
    (hk : ¬(pid = pid' ∧ ret = sp'.retailer)) :
    ∀ ls, (writeListingFirst pid' sp' s t ls).find? (lkey pid ret)
      = ls.find? (lkey pid ret) := by
  intro ls
  induction ls with
  | nil =>
    rw [writeListingFirst_nil,
      List.find?_cons_of_neg _
        (by rw [lkey_setListingFields]; exact lkey_freshListing_other _ _ _ _ hk)]
  | cons l ls ih =>
    by_cases hw : lkey pid' sp'.retailer l
    · have hl : ¬ lkey pid ret l = true := fun hl =>
        hk (lkey_both_eq pid pid' ret sp'.retailer l hl hw)
      rw [writeListingFirst_cons_pos _ _ _ _ _ _ hw,
        List.find?_cons_of_neg _
          (by rw [lkey_setListingFields]; exact hl),
        List.find?_cons_of_neg _ hl]
    · rw [writeListingFirst_cons_neg _ _ _ _ _ _ hw]
      by_cases hl : lkey pid ret l
      · rw [List.find?_cons_of_pos _ hl, List.find?_cons_of_pos _ hl]
      · rw [List.find?_cons_of_neg _ hl, List.find?_cons_of_neg _ hl, ih]

theorem find?_write_self (pid : Nat) (sp : ScrapedProduct) (s : String)
    (t : Nat) :
    ∀ ls, (writeListingFirst pid sp s t ls).find? (lkey pid sp.retailer)
      = some (setListingFields
          ((ls.find? (lkey pid sp.retailer)).getD
            (freshListing pid sp.retailer)) sp s t) := by
  intro ls
  induction ls with
  | nil =>
    rw [writeListingFirst_nil,
      List.find?_cons_of_pos _
        (by rw [lkey_setListingFields]; exact lkey_freshListing pid _)]
    rfl
  | cons l ls ih =>
    by_cases hw : lkey pid sp.retailer l
    · rw [writeListingFirst_cons_pos _ _ _ _ _ _ hw,
        List.find?_cons_of_pos _
          (by rw [lkey_setListingFields]; exact hw),
        List.find?_cons_of_pos _ hw]
      rfl
    · rw [writeListingFirst_cons_neg _ _ _ _ _ _ hw,
        List.find?_cons_of_neg _ hw, List.find?_cons_of_neg _ hw, ih]

theorem writeListingFirst_noop (pid : Nat) (sp : ScrapedProduct) (s : String)
    (t : Nat) :
    ∀ ls (m : Listing), ls.find? (lkey pid sp.retailer) = some m →
      setListingFields m sp s t = m → writeListingFirst pid sp s t ls = ls := by
  intro ls
  induction ls with
  | nil =>
    intro m hm _
    exact absurd hm (by simp)
  | cons l ls ih =>
    intro m hm hset
    by_cases hw : lkey pid sp.retailer l
    · rw [List.find?_cons_of_pos _ hw] at hm
      have : m = l := Option.some.injEq _ _ ▸ hm.symm ▸ rfl
      rw [writeListingFirst_cons_pos _ _ _ _ _ _ hw]
      rw [← this, hset]
    · rw [List.find?_cons_of_neg _ hw] at hm
      rw [writeListingFirst_cons_neg _ _ _ _ _ _ hw, ih m hm hset]

theorem lapply_present (s : String) (t : Nat) (pid : Nat) (ret : String) :
    ∀ (ws : List (Nat × ScrapedProduct)) (ls : List Listing),
      (ls.find? (lkey pid ret)).isSome = true →
      ((lapply s t ws ls).find? (lkey pid ret)).isSome = true := by
  intro ws
  induction ws with
  | nil =>
    intro ls hp
    exact hp
  | cons w ws ih =>
    intro ls hp
    exact ih _ (isSome_find?_write w.1 w.2 s t pid ret ls hp)

theorem lapply_shadow (s : String) (t : Nat) :
    ∀ (ws : List (Nat × ScrapedProduct)) (pid : Nat) (sp : ScrapedProduct)
      (ls : List Listing),
      (pid, sp.retailer) ∈ ws.map (fun w => (w.1, w.2.retailer)) →
      (ls.find? (lkey pid sp.retailer)).isSome = true →
      lapply s t ws (writeListingFirst pid sp s t ls) = lapply s t ws ls := by
  intro ws
  induction ws with
  | nil =>
    intro pid sp ls hm _
    simp at hm
  | cons w ws ih =>
    intro pid sp ls hm hp
    simp only [lapply]
    by_cases hkey : (w.1, w.2.retailer) = (pid, sp.retailer)
    · have h0 : w.1 = pid := congrArg Prod.fst hkey
      have h1 : w.2.retailer = sp.retailer := congrArg Prod.snd hkey
      rw [show writeListingFirst w.1 w.2 s t (writeListingFirst pid sp s t ls)
          = writeListingFirst w.1 w.2 s t ls from by
        rw [h0]
        exact writeListingFirst_absorb pid sp w.2 s s t t h1 ls]
    · have hm' : (pid, sp.retailer) ∈ ws.map (fun w => (w.1, w.2.retailer)) := by
        simp only [List.map_cons, List.mem_cons] at hm
        rcases hm with he | hm
        · exact absurd he.symm hkey
        · exact hm
      have hk2 : ¬(pid = w.1 ∧ sp.retailer = w.2.retailer) := by
        intro hc
        exact hkey (by rw [hc.1, hc.2])
      rw [writeListingFirst_comm pid w.1 sp w.2 s t hk2 ls hp]
      exact ih pid sp (writeListingFirst w.1 w.2 s t ls) hm'
        (isSome_find?_write w.1 w.2 s t pid sp.retailer ls hp)

theorem lapply_frame (s : String) (t : Nat) (pid : Nat) (ret : String) :
    ∀ (ws : List (Nat × ScrapedProduct)) (ls : List Listing),
      (pid, ret) ∉ ws.map (fun w => (w.1, w.2.retailer)) →
      (lapply s t ws ls).find? (lkey pid ret) = ls.find? (lkey pid ret) := by
  intro ws
  induction ws with
  | nil =>
    intro ls _
    rfl
  | cons w ws ih =>
    intro ls hm
    simp only [List.map_cons, List.mem_cons, not_or] at hm
    have hk : ¬(pid = w.1 ∧ ret = w.2.retailer) := by
      intro hc
      exact hm.1 (by rw [hc.1, hc.2])
    simp only [lapply]
    rw [ih _ (by simpa using hm.2), find?_write_other w.1 w.2 s t pid ret hk]

theorem lapply_replay (s : String) (t : Nat) :
    ∀ (ws : List (Nat × ScrapedProduct)) (ls : List Listing),
      lapply s t ws (lapply s t ws ls) = lapply s t ws ls := by
  intro ws
  induction ws with
  | nil =>
    intro ls
    rfl
  | cons w ws ih =>
    intro ls
    by_cases hm : (w.1, w.2.retailer) ∈ ws.map (fun x => (x.1, x.2.retailer))
    · simp only [lapply]
      have hp0 : ((writeListingFirst w.1 w.2 s t ls).find?
          (lkey w.1 w.2.retailer)).isSome = true := by
        rw [find?_write_self]
        rfl
      rw [lapply_shadow s t ws w.1 w.2 _ hm
        (lapply_present s t w.1 w.2.retailer ws _ hp0)]
      exact ih _
    · simp only [lapply]
      have hp0 := find?_write_self w.1 w.2 s t ls
      have hfr := lapply_frame s t w.1 w.2.retailer ws
        (writeListingFirst w.1 w.2 s t ls) hm
      have hnoop := writeListingFirst_noop w.1 w.2 s t
        (lapply s t ws (writeListingFirst w.1 w.2 s t ls))
        (setListingFields
          ((ls.find? (lkey w.1 w.2.retailer)).getD
            (freshListing w.1 w.2.retailer)) w.2 s t)
        (by rw [hfr, hp0]) (setListingFields_absorb _ _ _ _ _ _ _)
      rw [hnoop]
      exact ih _

/-- C2: applying `upsert_products` twice with a byte-identical record list
(same records, source tag, and call timestamp — the embedding surfaces the
importer's `datetime.utcnow()` as the explicit parameter `t`) leaves the
catalog in exactly the state the first call produced, and the second call
reports `created = 0` (with `upserted` equal to the record count, as every
record still counts as an upsert). -/
theorem upsert_products_idempotent (source : String) (t : Nat)
    (sps : List ScrapedProduct) (st : Catalog) :
    upsert_products source t sps (upsert_products source t sps st).1
      = ((upsert_products source t sps st).1, 0, sps.length) := by
  have htrace := (pidTrace_final sps (st.products, st.next_id)).symm
  have hidem := prodApply_idem sps (st.products, st.next_id)
  have hzero := createdCount_zero sps (prodApply sps (st.products, st.next_id))
    (fun sp h => prodApply_all_handled sps (st.products, st.next_id) sp h)
  rw [upsert_products_decomp, upsert_products_decomp]
  simp only [Prod.mk.eta]
  rw [hidem, htrace, lapply_replay, hzero]

/-! ### Identity-uniqueness lemmas -/

theorem prodKeyOf_backfillOne (p : Product) (sp : ScrapedProduct) :
    prodKeyOf (backfillOne p sp) = prodKeyOf p := rfl

theorem map_prodKeyOf_backfillFirst (sp : ScrapedProduct) :
    ∀ ps : List Product,
      (backfillFirst sp ps).map prodKeyOf = ps.map prodKeyOf := by
  intro ps
  induction ps with
  | nil => rfl
  | cons p ps ih =>
    by_cases hp : pkey sp p
    · rw [backfillFirst, if_pos hp, List.map_cons, List.map_cons,
        prodKeyOf_backfillOne]
    · rw [backfillFirst, if_neg hp, List.map_cons, List.map_cons, ih]

theorem productKeyUnique_backfillFirst (sp : ScrapedProduct)
    (ps : List Product) (h : productKeyUnique ps) :
    productKeyUnique (backfillFirst sp ps) := by
  unfold productKeyUnique at h ⊢
  have h1 : List.Pairwise (fun a b => a ≠ b) (ps.map prodKeyOf) :=
    List.pairwise_map.mpr h
  rw [← map_prodKeyOf_backfillFirst sp ps] at h1
  exact List.pairwise_map.mp h1

theorem productKeyUnique_append_new (sp : ScrapedProduct) (n : Nat)
    (ps : List Product) (h : productKeyUnique ps)
    (hf : ps.find? (pkey sp) = none) :
    productKeyUnique (ps ++ [newProduct n sp]) := by
  unfold productKeyUnique at h ⊢
  rw [List.pairwise_append]
  refine ⟨h, List.pairwise_singleton _ _, ?_⟩
  intro p hp q hq
  simp only [List.mem_singleton] at hq
  subst hq
  intro hkey
  apply List.find?_eq_none.mp hf p hp
  have h2 : p.name = sp.name ∧ p.brand = sp.brand := by
    have h3 : prodKeyOf p = (sp.name, sp.brand) := hkey
    simp only [prodKeyOf, Prod.mk.injEq] at h3
    exact h3
  simp [pkey, h2.1, h2.2]

theorem productKeyUnique_prodStep (sp : ScrapedProduct)
    (pn : List Product × Nat) (h : productKeyUnique pn.1) :
    productKeyUnique (prodStep sp pn).1 := by
  obtain ⟨ps, n⟩ := pn
  simp only at h
  unfold prodStep
  cases hf : ps.find? (pkey sp) with
  | some p =>
    simpa using productKeyUnique_backfillFirst sp ps h
  | none =>
    simpa using productKeyUnique_append_new sp n ps h hf

theorem lkeyOf_setListingFields (l : Listing) (sp : ScrapedProduct)
    (s : String) (t : Nat) :
    lkeyOf (setListingFields l sp s t) = lkeyOf l := rfl

theorem mem_write_keys (pid : Nat) (sp : ScrapedProduct) (s : String)
    (t : Nat) :
    ∀ (ls : List Listing) (q : Listing), q ∈ writeListingFirst pid sp s t ls →
      lkeyOf q ∈ ls.map lkeyOf ∨ lkeyOf q = (pid, sp.retailer) := by
  intro ls
  induction ls with
  | nil =>
    intro q hq
    rw [writeListingFirst_nil] at hq
    simp only [List.mem_singleton] at hq
    subst hq
    right
    rfl
  | cons l ls ih =>
    intro q hq
    by_cases hw : lkey pid sp.retailer l
    · rw [writeListingFirst_cons_pos _ _ _ _ _ _ hw] at hq
      rcases List.mem_cons.mp hq with he | hm
      · subst he
        left
        simp [lkeyOf_setListingFields]
      · left
        simp only [List.map_cons, List.mem_cons]
        right
        exact List.mem_map_of_mem lkeyOf hm
    · rw [writeListingFirst_cons_neg _ _ _ _ _ _ hw] at hq
      rcases List.mem_cons.mp hq with he | hm
      · subst he
        left
        simp
      · rcases ih q hm with hin | heq
        · left
          simp only [List.map_cons, List.mem_cons]
          right
          exact hin
        · right
          exact heq

theorem listingKeyUnique_write (pid : Nat) (sp : ScrapedProduct) (s : String)
    (t : Nat) :
    ∀ ls, listingKeyUnique ls →
      listingKeyUnique (writeListingFirst pid sp s t ls) := by
  intro ls
  induction ls with
  | nil =>
    intro _
    rw [writeListingFirst_nil]
    exact List.pairwise_singleton _ _
  | cons l ls ih =>
    intro h
    obtain ⟨hhead, htail⟩ := List.pairwise_cons.mp h
    by_cases hw : lkey pid sp.retailer l
    · rw [writeListingFirst_cons_pos _ _ _ _ _ _ hw]
      refine List.pairwise_cons.mpr ⟨?_, htail⟩
      intro q hq
      rw [lkeyOf_setListingFields]
      exact hhead q hq
    · rw [writeListingFirst_cons_neg _ _ _ _ _ _ hw]
      refine List.pairwise_cons.mpr ⟨?_, ih htail⟩
      intro q hq
      rcases mem_write_keys pid sp s t ls q hq with hin | heq
      · obtain ⟨q₀, hq₀, hkq⟩ := List.mem_map.mp hin
        intro hc
        exact hhead q₀ hq₀ (hc.trans hkq.symm)
      · intro hc
        apply hw
        have h2 : lkeyOf l = (pid, sp.retailer) := hc.trans heq
        simp only [lkeyOf, Prod.mk.injEq] at h2
        simp [lkey, h2.1, h2.2]

theorem upsert_products_preserves_unique (source : String) (t : Nat) :
    ∀ (sps : List ScrapedProduct) (st : Catalog),
      productKeyUnique st.products → listingKeyUnique st.listings →
      productKeyUnique (upsert_products source t sps st).1.products
      ∧ listingKeyUnique (upsert_products source t sps st).1.listings := by
  intro sps
  induction sps with
  | nil =>
    intro st hP hL
    exact ⟨hP, hL⟩
  | cons sp sps ih =>
    intro st hP hL
    rw [upsert_products]
    simp only
    refine ih (upsertOne source t st sp).1 ?_ ?_
    · rw [upsertOne_decomp]
      exact productKeyUnique_prodStep sp (st.products, st.next_id) hP
    · rw [upsertOne_decomp]
      exact listingKeyUnique_write _ sp source t st.listings hL

theorem countPKey_eq_zero_iff (n b : String) (ps : List Product) :
    countPKey n b ps = 0
      ↔ ps.find? (fun p => p.name == n && p.brand == b) = none := by
  unfold countPKey
  rw [List.length_eq_zero, List.filter_eq_nil_iff, List.find?_eq_none]

theorem countPKey_append (n b : String) (ps qs : List Product) :
    countPKey n b (ps ++ qs) = countPKey n b ps + countPKey n b qs := by
  unfold countPKey
  rw [List.filter_append, List.length_append]

theorem countPKey_singleton_new (n b : String) (m : Nat)
    (sp : ScrapedProduct) (hn : sp.name = n) (hb : sp.brand = b) :
    countPKey n b [newProduct m sp] = 1 := by
  unfold countPKey
  simp [newProduct, List.filter_cons, hn, hb]

theorem countPKey_eq_map (n b : String) (ps : List Product) :
    countPKey n b ps
      = ((ps.map prodKeyOf).filter (fun k => k.1 == n && k.2 == b)).length := by
  unfold countPKey
  rw [List.filter_map, List.length_map]
  rfl

theorem countPKey_congr_map (n b : String) {ps qs : List Product}
    (h : ps.map prodKeyOf = qs.map prodKeyOf) :
    countPKey n b ps = countPKey n b qs := by
  rw [countPKey_eq_map, countPKey_eq_map, h]

theorem countPKey_le_one (n b : String) :
    ∀ ps : List Product, productKeyUnique ps → countPKey n b ps ≤ 1 := by
  intro ps
  induction ps with
  | nil =>
    intro _
    simp [countPKey]
  | cons p ps ih =>
    intro h
    obtain ⟨hhead, htail⟩ := List.pairwise_cons.mp h
    by_cases hp : (p.name == n && p.brand == b) = true
    · have hkp : prodKeyOf p = (n, b) := by
        simp only [Bool.and_eq_true, beq_iff_eq] at hp
        simp [prodKeyOf, hp.1, hp.2]
      have hz : countPKey n b ps = 0 := by
        unfold countPKey
        rw [List.length_eq_zero, List.filter_eq_nil_iff]
        intro q hq hpred
        have hkq : prodKeyOf q = (n, b) := by
          simp only [Bool.and_eq_true, beq_iff_eq] at hpred
          simp [prodKeyOf, hpred.1, hpred.2]
        exact hhead q hq (hkp.trans hkq.symm)
      unfold countPKey at hz ⊢
      simp only [List.filter_cons]
      rw [if_pos hp, List.length_cons, hz]
    · unfold countPKey at ih ⊢
      simp only [List.filter_cons]
      rw [if_neg hp]
      exact ih htail

theorem pkey_shared (sp : ScrapedProduct) (n b : String) (hn : sp.name = n)
    (hb : sp.brand = b) :
    pkey sp = fun p => p.name == n && p.brand == b := by
  funext p
  rw [pkey, hn, hb]

theorem countPKey_prodStep_shared (n b : String) (sp : ScrapedProduct)
    (hn : sp.name = n) (hb : sp.brand = b) (pn : List Product × Nat)
    (h1 : countPKey n b pn.1 ≤ 1) :
    countPKey n b (prodStep sp pn).1 = 1 := by
  obtain ⟨ps, n'⟩ := pn
  simp only at h1
  unfold prodStep
  cases hf : ps.find? (pkey sp) with
  | some p =>
    have hc : countPKey n b (backfillFirst sp ps) = countPKey n b ps :=
      countPKey_congr_map n b (map_prodKeyOf_backfillFirst sp ps)
    have hnz : countPKey n b ps ≠ 0 := by
      intro h0
      have := (countPKey_eq_zero_iff n b ps).mp h0
      rw [← pkey_shared sp n b hn hb] at this
      rw [this] at hf
      exact Option.noConfusion hf
    simp only
    omega
  | none =>
    have h0 : countPKey n b ps = 0 := by
      rw [countPKey_eq_zero_iff, ← pkey_shared sp n b hn hb]
      exact hf
    simp only
    rw [countPKey_append, h0, countPKey_singleton_new n b n' sp hn hb]

theorem countPKey_prodApply_shared (n b : String) :
    ∀ (sps : List ScrapedProduct) (pn : List Product × Nat),
      (∀ sp ∈ sps, sp.name = n ∧ sp.brand = b) →
      countPKey n b pn.1 = 1 → countPKey n b (prodApply sps pn).1 = 1 := by
  intro sps
  induction sps with
  | nil =>
    intro pn _ h1
    exact h1
  | cons sp sps ih =>
    intro pn hall h1
    rw [prodApply]
    have hsp := hall sp (List.mem_cons_self sp sps)
    exact ih (prodStep sp pn)
      (fun x hx => hall x (List.mem_cons_of_mem sp hx))
      (countPKey_prodStep_shared n b sp hsp.1 hsp.2 pn (le_of_eq h1))

/-- C3: starting from a catalog with unique `(name, brand)` product keys and
unique `(product, retailer)` listing keys, any `upsert_products` call
preserves both invariants (so the catalog always holds at most one product
row per exact case-sensitive key), and applying a non-empty batch of records
all sharing one `(name, brand)` key leaves exactly one product row for that
key. -/
theorem upsert_products_identity_uniqueness (source : String) (t : Nat)
    (sps : List ScrapedProduct) (st : Catalog)
    (hP : productKeyUnique st.products) (hL : listingKeyUnique st.listings) :
    productKeyUnique (upsert_products source t sps st).1.products
    ∧ listingKeyUnique (upsert_products source t sps st).1.listings
    ∧ (∀ n b, countPKey n b (upsert_products source t sps st).1.products ≤ 1)
    ∧ (∀ n b, sps ≠ [] → (∀ sp ∈ sps, sp.name = n ∧ sp.brand = b) →
        countPKey n b (upsert_products source t sps st).1.products = 1) := by
  obtain ⟨h1, h2⟩ := upsert_products_preserves_unique source t sps st hP hL
  refine ⟨h1, h2, fun n b => countPKey_le_one n b _ h1, ?_⟩
  intro n b hne hall
  rw [upsert_products_decomp]
  cases sps with
  | nil => exact absurd rfl hne
  | cons sp rest =>
    rw [prodApply]
    have hsp := hall sp (List.mem_cons_self sp rest)
    exact countPKey_prodApply_shared n b rest
      (prodStep sp (st.products, st.next_id))
      (fun x hx => hall x (List.mem_cons_of_mem sp hx))
      (countPKey_prodStep_shared n b sp hsp.1 hsp.2
        (st.products, st.next_id) (countPKey_le_one n b st.products hP))

/-- Witness for C3: two records sharing the key `("X", "B")` applied to the
empty catalog leave exactly one product row for that key. -/
theorem upsert_products_identity_witness :
    countPKey "X" "B" (upsert_products "crawl4ai" 7
        [mkSP "X" "R1" 10, mkSP "X" "R2" 12] emptyCatalog).1.products = 1 :=
  (upsert_products_identity_uniqueness "crawl4ai" 7
      [mkSP "X" "R1" 10, mkSP "X" "R2" 12] emptyCatalog
      List.Pairwise.nil List.Pairwise.nil).2.2.2 "X" "B"
    (by decide) (by decide)

/-! ### Re-sighting backfill (C7) -/

theorem backfillFirst_forall2 (sp : ScrapedProduct) :
    ∀ ps : List Product, List.Forall₂ resightFrame ps (backfillFirst sp ps) := by
  intro ps
  induction ps with
  | nil => exact List.Forall₂.nil
  | cons p ps ih =>
    by_cases hp : pkey sp p
    · rw [backfillFirst, if_pos hp]
      refine List.Forall₂.cons ?_ ?_
      · refine ⟨rfl, rfl, rfl, rfl, rfl, ?_, ?_⟩
        · intro hd
          rw [backfillOne_description, if_neg (fun hc => hd hc.2)]
        · intro hi
          rw [backfillOne_image_url, if_neg (fun hc => hi hc.2)]
      · refine List.forall₂_same.mpr ?_
        intro x _
        exact ⟨rfl, rfl, rfl, rfl, rfl, fun _ => rfl, fun _ => rfl⟩
    · rw [backfillFirst, if_neg hp]
      exact List.Forall₂.cons
        ⟨rfl, rfl, rfl, rfl, rfl, fun _ => rfl, fun _ => rfl⟩ ih

/-- C7: a re-sighting of an existing `(name, brand)` product never creates a
row; the matched row keeps its name, brand, category, tags and id, its
description and image URL are backfilled exactly when the stored value is
empty and the incoming one is not, and — across the whole table — populated
description/image values are never overwritten. -/
theorem upsert_resight_backfill_semantics (source : String) (t : Nat)
    (st : Catalog) (sp : ScrapedProduct) (p : Product)
    (hf : st.products.find? (pkey sp) = some p) :
    (upsertOne source t st sp).2 = false
    ∧ (upsertOne source t st sp).1.products.find? (pkey sp)
        = some (backfillOne p sp)
    ∧ (backfillOne p sp).name = p.name
    ∧ (backfillOne p sp).brand = p.brand
    ∧ (backfillOne p sp).category = p.category
    ∧ (backfillOne p sp).tags = p.tags
    ∧ (backfillOne p sp).description
        = (if sp.description ≠ "" ∧ p.description = "" then sp.description
           else p.description)
    ∧ (backfillOne p sp).image_url
        = (if sp.image_url ≠ "" ∧ p.image_url = "" then sp.image_url
           else p.image_url)
    ∧ List.Forall₂ resightFrame st.products
        (upsertOne source t st sp).1.products := by
  have hps : (upsertOne source t st sp).1.products
      = backfillFirst sp st.products := by
    unfold upsertOne
    rw [hf]
  refine ⟨?_, ?_, rfl, rfl, rfl, rfl, rfl, rfl, ?_⟩
  · unfold upsertOne
    rw [hf]
  · rw [hps, find?_backfillFirst_self, hf]
    rfl
  · rw [hps]
    exact backfillFirst_forall2 sp st.products

/-- Witness for C7 at a concrete catalog: the re-sighting is not counted as
created and the populated description survives. -/
theorem upsert_resight_backfill_witness :
    (upsertOne "crawl4ai" 3 catFix spFix).2 = false
    ∧ (backfillOne pFix spFix).description = "orig" := by
  have h := upsert_resight_backfill_semantics "crawl4ai" 3 catFix spFix pFix
    (by decide)
  refine ⟨h.1, ?_⟩
  rw [h.2.2.2.2.2.2.1]
  decide

end WHPC
